import Mathlib

/-!
Verification of the TAI AppImage Manager (src/tai.py) against its
natural-language specification.  The Python code is shallowly embedded:
strings become `List Char` (one element per Unicode code point, matching
Python `str` semantics), the Qt worker objects become explicit state
passing, and the bootstrap installer's control flow becomes a case split
on the possible exit paths.
-/

/-- The six ASCII whitespace characters stripped by Python `str.strip()`
(space, tab, newline, carriage return, vertical tab, form feed).  Python
also strips some further Unicode whitespace; none of it occurs in this
program's data, so the embedding restricts to the ASCII set. -/
def pyWs (c : Char) : Bool :=
  c = ' ' || c = '\t' || c = '\n' || c = '\r' || c = Char.ofNat 11 || c = Char.ofNat 12

/-- Python `s.strip()`: drop leading and trailing whitespace. -/
def pyStripList (l : List Char) : List Char :=
  ((l.dropWhile pyWs).reverse.dropWhile pyWs).reverse

/-- `startsWithList l sep` is Python `l.startswith(sep)`. -/
def startsWithList : List Char → List Char → Bool
  | _, [] => true
  | [], _ :: _ => false
  | c :: cs, d :: ds => decide (c = d) && startsWithList cs ds

/-- Python `needle in hay` for strings: some suffix of `hay` starts with
`needle`. -/
def pyContains (hay needle : List Char) : Bool :=
  match hay with
  | [] => startsWithList [] needle
  | c :: t => startsWithList (c :: t) needle || pyContains t needle

/-- Split at the first occurrence of `sep`: Python `hay.split(sep, 1)`
when `sep` occurs in `hay`, returning the parts before and after the
first occurrence; `none` when `sep` (nonempty in every use) does not
occur. -/
def splitFirst (sep : List Char) : List Char → Option (List Char × List Char)
  | [] => none
  | c :: t =>
    if startsWithList (c :: t) sep then some ([], (c :: t).drop sep.length)
    else
      match splitFirst sep t with
      | some (a, b) => some (c :: a, b)
      | none => none

/-- Python `s.split(sep)` for a one-character separator, keeping empty
parts (used for `output.strip().split(chr(10))`). -/
def splitOnChar (sep : Char) : List Char → List (List Char)
  | [] => [[]]
  | c :: t =>
    if c = sep then [] :: splitOnChar sep t
    else
      match splitOnChar sep t with
      | [] => [[c]]
      | h :: r => (c :: h) :: r

/-- Line-boundary characters recognised by Python `str.splitlines()`
that can occur in this program's data. -/
def isLineBreakChar (c : Char) : Bool :=
  c = '\n' || c = '\r' || c = Char.ofNat 11 || c = Char.ofNat 12 ||
  c = Char.ofNat 28 || c = Char.ofNat 29 || c = Char.ofNat 30 || c = Char.ofNat 133

/-- Worker loop of Python `str.splitlines()`: `cur` holds the current
line reversed; a carriage return followed by a newline counts as a
single boundary, and a trailing boundary does not open a final empty
line. -/
def pySplitLinesGo (cur : List Char) : List Char → List (List Char)
  | [] => [cur.reverse]
  | '\r' :: '\n' :: t =>
    cur.reverse :: (match t with | [] => [] | _ :: _ => pySplitLinesGo [] t)
  | c :: t =>
    if isLineBreakChar c then
      cur.reverse :: (match t with | [] => [] | _ :: _ => pySplitLinesGo [] t)
    else pySplitLinesGo (c :: cur) t

/-- Python `s.splitlines()`. -/
def pySplitLines (l : List Char) : List (List Char) :=
  match l with
  | [] => []
  | _ :: _ => pySplitLinesGo [] l

/-- ASCII case folding, the part of Python `str.lower()` exercised by
the search feature. -/
def pyLowerChar (c : Char) : Char :=
  if 'A' ≤ c ∧ c ≤ 'Z' then Char.ofNat (c.toNat + 32) else c

/-- Python `s.lower()`. -/
def pyLower (l : List Char) : List Char :=
  l.map pyLowerChar

/-- The escape character, byte 27. -/
def escChar : Char := Char.ofNat 27

/-- CSI parameter bytes, the regex class from `0` to `?` (0x30-0x3F). -/
def isCsiParam (c : Char) : Bool :=
  decide (48 ≤ c.toNat) && decide (c.toNat ≤ 63)

/-- CSI intermediate bytes, the regex class from space to `/` (0x20-0x2F). -/
def isCsiInter (c : Char) : Bool :=
  decide (32 ≤ c.toNat) && decide (c.toNat ≤ 47)

/-- CSI final bytes, the regex class from `@` to `~` (0x40-0x7E). -/
def isCsiFinal (c : Char) : Bool :=
  decide (64 ≤ c.toNat) && decide (c.toNat ≤ 126)

/-- After `ESC [`, consume parameter bytes, then intermediate bytes,
then one final byte; return the remainder, or `none` when no final byte
follows.  The three byte classes are pairwise disjoint, so this maximal
munch is exactly what the backtracking regex of
`strip_ansi_escape_codes` matches. -/
def csiBody (rest : List Char) : Option (List Char) :=
  match (rest.dropWhile isCsiParam).dropWhile isCsiInter with
  | c :: tl => if isCsiFinal c then some tl else none
  | [] => none

/-- When the list starts with a complete CSI escape sequence, return
the remainder after it. -/
def csiTail : List Char → Option (List Char)
  | c1 :: c2 :: rest => if c1 = escChar ∧ c2 = '[' then csiBody rest else none
  | _ => none

/-- Fuel-indexed scan implementing `re.sub` of the CSI regex with the
empty replacement: at each position, remove a complete CSI sequence if
one starts there, otherwise keep the character and move on.  The fuel
is always instantiated with the length of the list. -/
def stripAnsiGo : Nat → List Char → List Char
  | 0, l => l
  | _ + 1, [] => []
  | fuel + 1, c :: cs =>
    match csiTail (c :: cs) with
    | some tl => stripAnsiGo fuel tl
    | none => c :: stripAnsiGo fuel cs

/-- `strip_ansi_escape_codes` on code-point lists. -/
def stripAnsiList (l : List Char) : List Char :=
  stripAnsiGo l.length l

/-- Embeds `strip_ansi_escape_codes` (src/tai.py lines 50-55): remove
every match of the CSI regex. -/
def strip_ansi_escape_codes (s : String) : String :=
  ⟨stripAnsiList s.data⟩

/-- An app entry as held by the list models: the tuple
`(app_name, description, is_app)` built by the parsing code.  The spec
calls the third component `isInstalledFlag`. -/
structure AppEntry where
  name : List Char
  description : List Char
  isInstalledFlag : Bool
deriving DecidableEq

/-- The delimiter `" : "` (space, colon, space). -/
def colonSep : List Char := [' ', ':', ' ']

/-- The delimiter `"|"`. -/
def pipeSep : List Char := ['|']

/-- Embeds `AppImageManagerGUI.extract_app_name` (src/tai.py lines
618-628).  The Python code tests for a pipe character first and only
then for the colon delimiter; each `in`-test followed by a split is
rendered as one match on `splitFirst`, which succeeds exactly when the
delimiter occurs in the line. -/
def AppImageManagerGUI.extract_app_name (app_line : List Char) : List Char :=
  match splitFirst pipeSep app_line with
  | some (left, _) => pyStripList ((pyStripList left).dropWhile (fun c => c = '◆'))
  | none =>
    match splitFirst colonSep app_line with
    | some (left, _) => pyStripList ((pyStripList left).dropWhile (fun c => c = '◆'))
    | none => pyStripList ((pyStripList app_line).dropWhile (fun c => c = '◆'))

/-- Embeds `AppImageManagerGUI.extract_app_description` (src/tai.py
lines 630-641): the colon delimiter is tested first, then the pipe. -/
def AppImageManagerGUI.extract_app_description (app_line : List Char) : List Char :=
  match splitFirst colonSep app_line with
  | some (_, right) => pyStripList right
  | none =>
    match splitFirst pipeSep app_line with
    | some (_, right) => pyStripList right
    | none => []

/-- Embeds `FileLoaderWorker.extract_app_name` (src/tai.py lines
269-278): only the colon delimiter is considered; line 277 strips the
result once more. -/
def FileLoaderWorker.extract_app_name (app_line : List Char) : List Char :=
  pyStripList
    (match splitFirst colonSep app_line with
     | some (left, _) => pyStripList ((pyStripList left).dropWhile (fun c => c = '◆'))
     | none => pyStripList ((pyStripList app_line).dropWhile (fun c => c = '◆')))

/-- Embeds `FileLoaderWorker.extract_app_description` (src/tai.py lines
280-288): only the colon delimiter is considered. -/
def FileLoaderWorker.extract_app_description (app_line : List Char) : List Char :=
  match splitFirst colonSep app_line with
  | some (_, right) => pyStripList right
  | none => []

/-- One iteration of the loop in `FileLoaderWorker.run` (src/tai.py
lines 253-267): strip the raw file line, skip it when blank, otherwise
build an entry with `is_app = True` unconditionally. -/
def FileLoaderWorker.processLine (raw : List Char) : Option AppEntry :=
  let line := pyStripList raw
  if line = [] then none
  else
    some ⟨FileLoaderWorker.extract_app_name line,
          FileLoaderWorker.extract_app_description line, true⟩

/-- Embeds `FileLoaderWorker.run` on the list of raw lines read from the
available-apps file. -/
def FileLoaderWorker.run (fileLines : List (List Char)) : List AppEntry :=
  fileLines.filterMap FileLoaderWorker.processLine

/-- Python `line.strip().startswith(chr(9670))`: the stripped line
begins with the marker glyph. -/
def headIsMarker : List Char → Bool
  | [] => false
  | c :: _ => decide (c = '◆')

/-- One iteration of the loop inside the `callback` of
`AppImageManagerGUI.refresh_installed_apps` (src/tai.py lines 554-568):
skip blank lines, skip lines whose stripped form does not begin with the
marker glyph, and otherwise build an entry carrying the computed
`is_app_line` value, with the description's lines joined by spaces. -/
def AppImageManagerGUI.installedLineStep (app_line : List Char) : Option AppEntry :=
  if pyStripList app_line = [] then none
  else if headIsMarker (pyStripList app_line) = true then
    some ⟨AppImageManagerGUI.extract_app_name app_line,
          List.intercalate [' ']
            (pySplitLines (AppImageManagerGUI.extract_app_description app_line)),
          headIsMarker (pyStripList app_line)⟩
  else none

/-- Embeds the `callback` of `AppImageManagerGUI.refresh_installed_apps`
(src/tai.py lines 550-572) applied to the captured `appman -f` output:
when the output is empty no lines are parsed; otherwise the stripped
output is split on newlines and each line goes through
`installedLineStep`. -/
def AppImageManagerGUI.refresh_installed_callback (output : List Char) : List AppEntry :=
  if output = [] then []
  else (splitOnChar '\n' (pyStripList output)).filterMap AppImageManagerGUI.installedLineStep

/-- The GUI state the search feature touches: the session cache
`all_available_apps` and the list shown in the available-apps view. -/
structure GuiState where
  all_available_apps : List AppEntry
  displayed_available : List AppEntry
deriving DecidableEq

/-- Embeds `AppImageManagerGUI.perform_search` (src/tai.py lines
595-608): the search box text is stripped; when the stripped text is
empty a warning dialog is shown and nothing changes; otherwise the
cached list is filtered case-insensitively on name and description and
the filtered view is displayed.  The cache itself is never modified. -/
def AppImageManagerGUI.perform_search (search_box_text : List Char) (st : GuiState) : GuiState :=
  let search_text := pyStripList search_box_text
  if search_text = [] then st
  else
    { st with
      displayed_available :=
        st.all_available_apps.filter (fun e =>
          pyContains (pyLower e.name) (pyLower search_text) ||
          pyContains (pyLower e.description) (pyLower search_text)) }

/-- Embeds `AppImageManagerGUI.on_search_text_changed` (src/tai.py lines
462-467): automatic search fires only for texts of length at least 2. -/
def AppImageManagerGUI.on_search_text_changed (text : List Char) (st : GuiState) : GuiState :=
  if 2 ≤ text.length then AppImageManagerGUI.perform_search text st else st

/-- The accumulating state of the `Worker` QObject (src/tai.py lines
198-241): the ANSI-stripped text gathered from the two process
channels. -/
structure Worker where
  output_data : List Char
  error_data : List Char
deriving DecidableEq

/-- One delivery of bytes on the standard-output or standard-error
channel of the child process. -/
inductive Chunk
  | out (data : List Char)
  | err (data : List Char)
deriving DecidableEq

/-- Embeds `Worker.handle_stdout`: strip ANSI escapes from the chunk and
append it to `output_data`. -/
def Worker.handle_stdout (w : Worker) (data : List Char) : Worker :=
  { w with output_data := w.output_data ++ stripAnsiList data }

/-- Embeds `Worker.handle_stderr`: strip ANSI escapes from the chunk and
append it to `error_data`. -/
def Worker.handle_stderr (w : Worker) (data : List Char) : Worker :=
  { w with error_data := w.error_data ++ stripAnsiList data }

/-- Dispatch one chunk to the matching handler. -/
def Worker.handleChunk (w : Worker) : Chunk → Worker
  | Chunk.out d => w.handle_stdout d
  | Chunk.err d => w.handle_stderr d

/-- The worker state after the process delivered the given chunks, both
accumulators starting empty as in `Worker.__init__`. -/
def Worker.accumulate (chunks : List Chunk) : Worker :=
  chunks.foldl Worker.handleChunk ⟨[], []⟩

/-- The signal emitted when the process finishes: exactly one of the
two callbacks. -/
inductive WorkerSignal
  | errorOccurred (text : List Char)
  | outputReady (text : List Char)
deriving DecidableEq

/-- Embeds `Worker.process_finished` (src/tai.py lines 236-241): the
failure signal fires when the accumulated stripped error text is
nonempty, the success signal otherwise; the exit code is ignored. -/
def Worker.process_finished (w : Worker) : WorkerSignal :=
  if w.error_data = [] then WorkerSignal.outputReady w.output_data
  else WorkerSignal.errorOccurred w.error_data

/-- Contribution of one chunk to `output_data`. -/
def chunkOut : Chunk → List Char
  | Chunk.out d => stripAnsiList d
  | Chunk.err _ => []

/-- Contribution of one chunk to `error_data`. -/
def chunkErr : Chunk → List Char
  | Chunk.out _ => []
  | Chunk.err d => stripAnsiList d

/-- The marker phrase searched for in install output. -/
def success_message_start : List Char :=
  ("The following new programs have been installed:").data

/-- Fuel-indexed computation of Python
`output.split(success_message_start)` taking the last element: keep
splitting off the part before the first occurrence until none is left. -/
def lastSegGo : Nat → List Char → List Char
  | 0, l => l
  | fuel + 1, l =>
    match splitFirst success_message_start l with
    | none => l
    | some (_, b) => lastSegGo fuel b

/-- Python `output.split(success_message_start)[-1]`. -/
def lastSplitSegment (l : List Char) : List Char :=
  lastSegGo l.length l

/-- Embeds the display computation of the `callback` in
`AppImageManagerGUI.install_selected_appimage` (src/tai.py lines
752-764) and its duplicate in
`install_selected_appimage_from_suggested` (lines 781-793): when the
marker phrase occurs, show the marker phrase, a newline, and the
stripped text after its last occurrence; otherwise show the full
output. -/
def AppImageManagerGUI.install_callback_display (output : List Char) : List Char :=
  if pyContains output success_message_start = true then
    success_message_start ++ '\n' :: pyStripList (lastSplitSegment output)
  else output

/-- The possible exit paths of `download_and_run_am_installer`
(src/tai.py lines 997-1034): the download may raise (with or without
the target file having been created by `wget -O`), `chmod` or
`Popen`/`communicate` may raise, or the installer runs to completion
with some return code. -/
inductive InstallerOutcome
  | downloadRaises (fileCreated : Bool)
  | chmodRaises
  | runRaises
  | finishes (returncode : Int)
deriving DecidableEq

/-- The part of the file system the bootstrap step owns: whether
`./AM-INSTALLER` is on disk. -/
structure InstallerFs where
  installerFileOnDisk : Bool
deriving DecidableEq

/-- The `finally` block: `if os.path.exists: os.remove`. -/
def installerCleanup (fs : InstallerFs) : InstallerFs :=
  if fs.installerFileOnDisk then { installerFileOnDisk := false } else fs

/-- Embeds `download_and_run_am_installer` as a function from the exit
path to the returned flag and the final file-system state.  The `try`
body creates the file (the download step), every raise lands in the
broad `except` returning `False`, a nonzero return code returns
`False`, and the `finally` cleanup runs on every path. -/
def download_and_run_am_installer : InstallerOutcome → Bool × InstallerFs
  | InstallerOutcome.downloadRaises created => (false, installerCleanup ⟨created⟩)
  | InstallerOutcome.chmodRaises => (false, installerCleanup ⟨true⟩)
  | InstallerOutcome.runRaises => (false, installerCleanup ⟨true⟩)
  | InstallerOutcome.finishes rc =>
    if rc ≠ 0 then (false, installerCleanup ⟨true⟩)
    else (true, installerCleanup ⟨true⟩)

/-- The icon cache directory constant (src/tai.py line 30). -/
def ICON_CACHE_DIR : List Char := ("./icon_cache").data

/-- `os.path.basename`: the text after the last slash. -/
def os_path_basename (p : List Char) : List Char :=
  (splitOnChar '/' p).getLastD []

/-- The cache path `os.path.join(ICON_CACHE_DIR, os.path.basename(url))`
computed by `download_icon`. -/
def icon_cache_path (url : List Char) : List Char :=
  ICON_CACHE_DIR ++ '/' :: os_path_basename url

/-- Result of one `download_icon` call: the returned path (or `None`),
whether the download branch was entered, and the file system after the
call. -/
structure IconDownloadResult where
  resultPath : Option (List Char)
  downloadAttempted : Bool
  fsAfter : List Char → Bool

/-- Embeds `download_icon` (src/tai.py lines 37-48).  `fs` tells which
paths exist, `net` yields the fetched bytes or `none` when the request
(or the file write) raises.  When the cache file exists the path is
returned with no download; when the download raises the function
returns `None`; otherwise the file is written and the path returned. -/
def download_icon (fs : List Char → Bool) (net : List Char → Option (List Char))
    (url : List Char) : IconDownloadResult :=
  let path := icon_cache_path url
  if fs path = true then ⟨some path, false, fs⟩
  else
    match net url with
    | none => ⟨none, true, fs⟩
    | some _content => ⟨some path, true, fun q => if q = path then true else fs q⟩

/-- A Qt icon value: built from a cached file, or the empty
`QIcon()`. -/
inductive IconValue
  | fromFile (path : List Char)
  | empty
deriving DecidableEq

/-- Embeds the `DecorationRole` branch of `SuggestedAppModel.data`
(src/tai.py lines 184-190): render the cached icon when `download_icon`
returns a path, the empty icon otherwise. -/
def SuggestedAppModel.decorationData (fs : List Char → Bool)
    (net : List Char → Option (List Char)) (icon_url : List Char) : IconValue :=
  match (download_icon fs net icon_url).resultPath with
  | some p => IconValue.fromFile p
  | none => IconValue.empty

/-! Concrete inputs used by witnesses and counterexamples. -/

/-- A standard-error chunk consisting solely of an ANSI reset sequence. -/
def ansiOnlyErrChunk : List Char := ("\x1b[0m").data

/-- Chunk list delivering bytes only on the error channel, all of them
ANSI escape bytes. -/
def ansiOnlyErrChunks : List Chunk := [Chunk.err ansiOnlyErrChunk]

/-- Chunk list with ordinary output and a colored error message. -/
def coloredErrChunks : List Chunk :=
  [Chunk.out ("partial output").data, Chunk.err ("\x1b[31mboom\x1b[0m").data]

/-- A line containing both delimiters: the colon delimiter first, then
the pipe. -/
def bothDelimLine : List Char := ("a : b|c").data

/-- A line with no delimiter that begins with two marker glyphs. -/
def doubleMarkerLine : List Char := ("◆◆stacer").data

/-- The red-text example from the specification. -/
def redExample : String := "\x1b[31mRed\x1b[0m"

/-- The mock `appman -f` output from the specification. -/
def mockInstalledOutput : List Char :=
  ("◆App1 : desc1\nnot-an-app-line\n◆App2 : desc2\n").data

/-- A search-box text of three characters ending in a space. -/
def trailingSpaceQuery : List Char := ("ab ").data

/-- A cached entry whose name does not contain the un-stripped query. -/
def shortNameEntry : AppEntry := ⟨("ab").data, [], true⟩

/-- GUI state holding just `shortNameEntry` in the session cache. -/
def shortNameState : GuiState := ⟨[shortNameEntry], []⟩

/-- GUI state used by the search witness. -/
def searchWitnessState : GuiState :=
  ⟨[⟨("Blender").data, ("3D suite").data, true⟩,
    ⟨("gimp").data, ("image editor").data, true⟩], []⟩

/-- A single available-apps file line. -/
def availFileLines : List (List Char) := [("zoom : video calls").data]

/-- A second available-apps file sample for the witness. -/
def availWitnessLines : List (List Char) := [("◆krita : painting").data]

/-- Install output in which text precedes the marker phrase. -/
def installOutWithMarker : List Char :=
  ("Done. The following new programs have been installed: kiwix").data

/-- Install output without the marker phrase. -/
def installOutPlain : List Char := ("nothing to report").data

/-- Icon URL used by the witness. -/
def iconUrlA : List Char := ("https://host-a/icons/x.png").data

/-- A different icon URL with the same basename. -/
def iconUrlB : List Char := ("https://host-b/other/x.png").data

/-- File system on which the cache file for `iconUrlA` already exists. -/
def iconFsCached : List Char → Bool :=
  fun p => decide (p = icon_cache_path iconUrlA)

/-- File system with an empty icon cache. -/
def iconFsEmpty : List Char → Bool := fun _ => false

/-- Network on which every request raises. -/
def iconNetDown : List Char → Option (List Char) := fun _ => none

/-! Utility lemmas about the Python string primitives. -/

theorem length_dropWhile_le (p : Char → Bool) (l : List Char) :
    (l.dropWhile p).length ≤ l.length := by
  induction l with
  | nil => simp
  | cons a t ih =>
    rw [List.dropWhile_cons]
    cases hp : p a with
    | true => simp only [if_pos rfl]; exact Nat.le_trans ih (Nat.le_succ _)
    | false => simp

theorem dropWhile_idem (p : Char → Bool) (l : List Char) :
    (l.dropWhile p).dropWhile p = l.dropWhile p := by
  induction l with
  | nil => rfl
  | cons a t ih =>
    cases hp : p a with
    | true => simp [List.dropWhile_cons, hp, ih]
    | false => simp [List.dropWhile_cons, hp]

theorem head?_dropWhile_false (p : Char → Bool) (l : List Char) :
    ∀ c, (l.dropWhile p).head? = some c → p c = false := by
  induction l with
  | nil => intro c h; simp at h
  | cons a t ih =>
    intro c h
    cases hp : p a with
    | true => rw [List.dropWhile_cons, if_pos hp] at h; exact ih c h
    | false =>
      rw [List.dropWhile_cons, if_neg (by simp [hp])] at h
      simp only [List.head?_cons, Option.some_inj] at h
      rw [← h]; exact hp

theorem dropWhile_eq_self_of_head (p : Char → Bool) (l : List Char)
    (h : ∀ c, l.head? = some c → p c = false) : l.dropWhile p = l := by
  cases l with
  | nil => rfl
  | cons a t => rw [List.dropWhile_cons, if_neg (by simp [h a rfl])]

theorem head?_append_left (l₁ l₂ : List Char) (h : l₁ ≠ []) :
    (l₁ ++ l₂).head? = l₁.head? := by
  cases l₁ with
  | nil => exact absurd rfl h
  | cons a t => rfl

theorem getLast?_append_right (l₁ l₂ : List Char) (h : l₂ ≠ []) :
    (l₁ ++ l₂).getLast? = l₂.getLast? := by
  rw [← List.head?_reverse, ← List.head?_reverse, List.reverse_append]
  exact head?_append_left _ _ (by simpa using h)

theorem dropWhile_getLast? (p : Char → Bool) (l : List Char) (h : l.dropWhile p ≠ []) :
    (l.dropWhile p).getLast? = l.getLast? := by
  conv_rhs => rw [← List.takeWhile_append_dropWhile p l]
  exact (getLast?_append_right _ _ h).symm

theorem pyStripList_idem (l : List Char) : pyStripList (pyStripList l) = pyStripList l := by
  unfold pyStripList
  by_cases hV : (l.dropWhile pyWs).reverse.dropWhile pyWs = []
  · rw [hV]; rfl
  · have hA : ((l.dropWhile pyWs).reverse.dropWhile pyWs).reverse.dropWhile pyWs
        = ((l.dropWhile pyWs).reverse.dropWhile pyWs).reverse := by
      apply dropWhile_eq_self_of_head
      intro c hc
      rw [List.head?_reverse] at hc
      rw [dropWhile_getLast? _ _ hV] at hc
      rw [List.getLast?_reverse] at hc
      exact head?_dropWhile_false _ _ c hc
    rw [hA, List.reverse_reverse, dropWhile_idem]

/-! Lemmas relating the occurrence test to first-occurrence splitting. -/

theorem splitFirst_none_of_not_contains (sep l : List Char)
    (h : pyContains l sep = false) : splitFirst sep l = none := by
  induction l with
  | nil => rfl
  | cons c t ih =>
    unfold pyContains at h
    rw [Bool.or_eq_false_iff] at h
    unfold splitFirst
    rw [if_neg (by simp [h.1])]
    rw [ih h.2]

theorem pyContains_false_of_splitFirst_none (sep l : List Char) (hs : sep ≠ [])
    (h : splitFirst sep l = none) : pyContains l sep = false := by
  induction l with
  | nil =>
    cases sep with
    | nil => exact absurd rfl hs
    | cons d ds => rfl
  | cons c t ih =>
    unfold splitFirst at h
    by_cases hsw : startsWithList (c :: t) sep = true
    · rw [if_pos hsw] at h; exact absurd h (by simp)
    · rw [if_neg hsw] at h
      cases hsp : splitFirst sep t with
      | some p => rw [hsp] at h; exact absurd h (by simp)
      | none =>
        unfold pyContains
        rw [Bool.or_eq_false_iff]
        exact ⟨by simpa using hsw, ih hsp⟩

theorem splitFirst_single (d : Char) (a b : List Char) (h : d ∉ a) :
    splitFirst [d] (a ++ d :: b) = some (a, b) := by
  induction a with
  | nil =>
    show splitFirst [d] (d :: b) = some ([], b)
    unfold splitFirst
    rw [if_pos (by simp [startsWithList])]
    simp
  | cons c a' ih =>
    have hcd : c ≠ d := fun hc => h (hc ▸ List.mem_cons_self c a')
    have h' : d ∉ a' := fun hm => h (List.mem_cons_of_mem c hm)
    rw [List.cons_append]
    unfold splitFirst
    rw [if_neg (by simp [startsWithList, hcd])]
    rw [ih h']

/-! Lemmas about the CSI scanner. -/

theorem inter_not_param {c : Char} (h : isCsiInter c = true) : isCsiParam c = false := by
  unfold isCsiInter at h
  unfold isCsiParam
  simp only [Bool.and_eq_true, decide_eq_true_eq] at h
  simp only [Bool.and_eq_false_iff, decide_eq_false_iff_not]
  omega

theorem final_not_param {c : Char} (h : isCsiFinal c = true) : isCsiParam c = false := by
  unfold isCsiFinal at h
  unfold isCsiParam
  simp only [Bool.and_eq_true, decide_eq_true_eq] at h
  simp only [Bool.and_eq_false_iff, decide_eq_false_iff_not]
  omega

theorem final_not_inter {c : Char} (h : isCsiFinal c = true) : isCsiInter c = false := by
  unfold isCsiFinal at h
  unfold isCsiInter
  simp only [Bool.and_eq_true, decide_eq_true_eq] at h
  simp only [Bool.and_eq_false_iff, decide_eq_false_iff_not]
  omega

theorem dropWhile_append_all (p : Char → Bool) (xs ys : List Char)
    (h : ∀ c ∈ xs, p c = true) : (xs ++ ys).dropWhile p = ys.dropWhile p := by
  induction xs with
  | nil => rfl
  | cons a t ih =>
    rw [List.cons_append, List.dropWhile_cons, if_pos (h a (List.mem_cons_self a t))]
    exact ih (fun c hc => h c (List.mem_cons_of_mem a hc))

theorem csiBody_length {rest tl : List Char} (h : csiBody rest = some tl) :
    tl.length < rest.length := by
  have hle : ((rest.dropWhile isCsiParam).dropWhile isCsiInter).length ≤ rest.length :=
    Nat.le_trans (length_dropWhile_le _ _) (length_dropWhile_le _ _)
  unfold csiBody at h
  cases hd : (rest.dropWhile isCsiParam).dropWhile isCsiInter with
  | nil => rw [hd] at h; exact absurd h (by simp)
  | cons c tl2 =>
    rw [hd] at h
    have h2 : (if isCsiFinal c = true then some tl2 else none) = some tl := h
    by_cases hf : isCsiFinal c = true
    · rw [if_pos hf] at h2
      simp only [Option.some_inj] at h2
      subst h2
      rw [hd] at hle
      simp only [List.length_cons] at hle
      omega
    · rw [if_neg hf] at h2; exact absurd h2 (by simp)

theorem csiTail_length : ∀ {l tl : List Char}, csiTail l = some tl → tl.length < l.length := by
  intro l tl h
  match l with
  | [] => exact absurd h (by simp [csiTail])
  | [c] => exact absurd h (by simp [csiTail])
  | c1 :: c2 :: rest =>
    unfold csiTail at h
    have h2 : (if c1 = escChar ∧ c2 = '[' then csiBody rest else none) = some tl := h
    by_cases hc : c1 = escChar ∧ c2 = '['
    · rw [if_pos hc] at h2
      have := csiBody_length h2
      simp only [List.length_cons]
      omega
    · rw [if_neg hc] at h2; exact absurd h2 (by simp)

theorem stripAnsiGo_congr (f1 : Nat) : ∀ (f2 : Nat) (l : List Char),
    l.length ≤ f1 → l.length ≤ f2 → stripAnsiGo f1 l = stripAnsiGo f2 l := by
  induction f1 with
  | zero =>
    intro f2 l h1 _
    have hl : l = [] := List.length_eq_zero.mp (Nat.le_zero.mp h1)
    subst hl
    cases f2 <;> rfl
  | succ f ih =>
    intro f2 l h1 h2
    cases l with
    | nil => cases f2 <;> rfl
    | cons c cs =>
      cases f2 with
      | zero => simp at h2
      | succ f2' =>
        simp only [List.length_cons] at h1 h2
        cases hcsi : csiTail (c :: cs) with
        | some tl =>
          have hlt := csiTail_length hcsi
          simp only [List.length_cons] at hlt
          simp only [stripAnsiGo, hcsi]
          exact ih f2' tl (by omega) (by omega)
        | none =>
          simp only [stripAnsiGo, hcsi]
          rw [ih f2' cs (by omega) (by omega)]

theorem stripAnsiList_cons (c : Char) (cs : List Char) :
    stripAnsiList (c :: cs) =
      match csiTail (c :: cs) with
      | some tl => stripAnsiList tl
      | none => c :: stripAnsiList cs := by
  unfold stripAnsiList
  cases hcsi : csiTail (c :: cs) with
  | some tl =>
    have hlt := csiTail_length hcsi
    simp only [List.length_cons] at hlt
    simp only [List.length_cons, stripAnsiGo, hcsi]
    exact stripAnsiGo_congr cs.length tl.length tl (by omega) (Nat.le_refl _)
  | none => simp only [List.length_cons, stripAnsiGo, hcsi]

theorem csiTail_ne_esc {c : Char} (cs : List Char) (h : c ≠ escChar) :
    csiTail (c :: cs) = none := by
  cases cs with
  | nil => rfl
  | cons c2 t =>
    show (if c = escChar ∧ c2 = '[' then csiBody t else none) = none
    rw [if_neg (by simp [h])]

theorem csiTail_valid {ps qs b : List Char} {f : Char}
    (hps : ∀ c ∈ ps, isCsiParam c = true) (hqs : ∀ c ∈ qs, isCsiInter c = true)
    (hf : isCsiFinal f = true) :
    csiTail (escChar :: '[' :: (ps ++ qs ++ f :: b)) = some b := by
  show (if escChar = escChar ∧ '[' = '[' then csiBody (ps ++ qs ++ f :: b) else none) = some b
  rw [if_pos ⟨rfl, rfl⟩]
  unfold csiBody
  rw [List.append_assoc, dropWhile_append_all _ _ _ hps]
  have h1 : (qs ++ f :: b).dropWhile isCsiParam = qs ++ f :: b := by
    apply dropWhile_eq_self_of_head
    intro c hc
    cases qs with
    | nil =>
      simp only [List.nil_append, List.head?_cons, Option.some_inj] at hc
      rw [← hc]; exact final_not_param hf
    | cons q qt =>
      simp only [List.cons_append, List.head?_cons, Option.some_inj] at hc
      rw [← hc]; exact inter_not_param (hqs q (List.mem_cons_self q qt))
  rw [h1, dropWhile_append_all _ _ _ hqs]
  have h2 : (f :: b).dropWhile isCsiInter = f :: b := by
    apply dropWhile_eq_self_of_head
    intro c hc
    simp only [List.head?_cons, Option.some_inj] at hc
    rw [← hc]; exact final_not_inter hf
  rw [h2]
  simp [hf]

/-! Helper lemmas about the worker, the installed-list refresh, and the
install-output display. -/

theorem accumulate_from (chunks : List Chunk) : ∀ w : Worker,
    (chunks.foldl Worker.handleChunk w).output_data
        = w.output_data ++ (chunks.map chunkOut).flatten ∧
    (chunks.foldl Worker.handleChunk w).error_data
        = w.error_data ++ (chunks.map chunkErr).flatten := by
  induction chunks with
  | nil => intro w; simp
  | cons ch t ih =>
    intro w
    cases ch with
    | out d =>
      have h := ih (w.handle_stdout d)
      constructor
      · show (t.foldl Worker.handleChunk (w.handle_stdout d)).output_data = _
        rw [h.1]
        simp [Worker.handle_stdout, chunkOut, List.append_assoc]
      · show (t.foldl Worker.handleChunk (w.handle_stdout d)).error_data = _
        rw [h.2]
        simp [Worker.handle_stdout, chunkErr]
    | err d =>
      have h := ih (w.handle_stderr d)
      constructor
      · show (t.foldl Worker.handleChunk (w.handle_stderr d)).output_data = _
        rw [h.1]
        simp [Worker.handle_stderr, chunkOut]
      · show (t.foldl Worker.handleChunk (w.handle_stderr d)).error_data = _
        rw [h.2]
        simp [Worker.handle_stderr, chunkErr, List.append_assoc]

theorem installedLineStep_flag (line : List Char) (e : AppEntry)
    (h : AppImageManagerGUI.installedLineStep line = some e) : e.isInstalledFlag = true := by
  unfold AppImageManagerGUI.installedLineStep at h
  by_cases h1 : pyStripList line = []
  · rw [if_pos h1] at h; exact absurd h (by simp)
  · rw [if_neg h1] at h
    by_cases h2 : headIsMarker (pyStripList line) = true
    · rw [if_pos h2] at h
      simp only [Option.some_inj] at h
      rw [← h]
      exact h2
    · rw [if_neg h2] at h; exact absurd h (by simp)

theorem refresh_installed_flag (output : List Char) :
    ∀ e ∈ AppImageManagerGUI.refresh_installed_callback output, e.isInstalledFlag = true := by
  intro e he
  unfold AppImageManagerGUI.refresh_installed_callback at he
  by_cases h0 : output = []
  · rw [if_pos h0] at he; simp at he
  · rw [if_neg h0] at he
    rw [List.mem_filterMap] at he
    obtain ⟨line, _, hstep⟩ := he
    exact installedLineStep_flag line e hstep

theorem installedLineStep_none_of_no_marker (line : List Char)
    (h : headIsMarker (pyStripList line) = false) :
    AppImageManagerGUI.installedLineStep line = none := by
  unfold AppImageManagerGUI.installedLineStep
  by_cases h1 : pyStripList line = []
  · rw [if_pos h1]
  · rw [if_neg h1, if_neg (by simp [h])]

theorem fileLoader_flag (fileLines : List (List Char)) :
    ∀ e ∈ FileLoaderWorker.run fileLines, e.isInstalledFlag = true := by
  intro e he
  unfold FileLoaderWorker.run at he
  rw [List.mem_filterMap] at he
  obtain ⟨raw, _, hstep⟩ := he
  unfold FileLoaderWorker.processLine at hstep
  by_cases h1 : pyStripList raw = []
  · simp only [h1, if_pos rfl] at hstep
    exact absurd hstep (by simp)
  · simp only [if_neg h1] at hstep
    simp only [Option.some_inj] at hstep
    rw [← hstep]

theorem splitFirst_length_lt (sep : List Char) (hs : sep ≠ []) :
    ∀ (l a b : List Char), splitFirst sep l = some (a, b) → b.length < l.length := by
  intro l
  induction l with
  | nil => intro a b h; exact absurd h (by simp [splitFirst])
  | cons c t ih =>
    intro a b h
    unfold splitFirst at h
    by_cases hsw : startsWithList (c :: t) sep = true
    · rw [if_pos hsw] at h
      simp only [Option.some_inj, Prod.mk.injEq] at h
      rw [← h.2]
      cases sep with
      | nil => exact absurd rfl hs
      | cons s ss =>
        have hd : List.drop (s :: ss).length (c :: t) = List.drop ss.length t := by
          simp [List.drop_succ_cons]
        rw [hd]
        have h2 := (List.drop_sublist ss.length t).length_le
        simp only [List.length_cons]
        omega
    · rw [if_neg hsw] at h
      cases hsp : splitFirst sep t with
      | none => rw [hsp] at h; exact absurd h (by simp)
      | some p =>
        rw [hsp] at h
        obtain ⟨a', b'⟩ := p
        simp only [Option.some_inj, Prod.mk.injEq] at h
        have := ih a' b' hsp
        rw [← h.2]
        simp only [List.length_cons]
        omega

theorem success_message_start_ne_nil : success_message_start ≠ [] := by decide

theorem lastSegGo_no_marker : ∀ (fuel : Nat) (l : List Char), l.length ≤ fuel →
    splitFirst success_message_start (lastSegGo fuel l) = none := by
  intro fuel
  induction fuel with
  | zero =>
    intro l h
    have hl : l = [] := List.length_eq_zero.mp (Nat.le_zero.mp h)
    subst hl
    rfl
  | succ f ih =>
    intro l h
    unfold lastSegGo
    cases hsp : splitFirst success_message_start l with
    | none => exact hsp
    | some p =>
      obtain ⟨a, b⟩ := p
      have := splitFirst_length_lt success_message_start success_message_start_ne_nil l a b hsp
      exact ih b (by omega)

theorem lastSplitSegment_no_marker (l : List Char) :
    pyContains (lastSplitSegment l) success_message_start = false :=
  pyContains_false_of_splitFirst_none _ _ success_message_start_ne_nil
    (lastSegGo_no_marker l.length l (Nat.le_refl _))

theorem stripAnsiList_no_esc : ∀ s : List Char, (∀ c ∈ s, c ≠ escChar) →
    stripAnsiList s = s := by
  intro s
  induction s with
  | nil => intro _; rfl
  | cons c cs ih =>
    intro h
    rw [stripAnsiList_cons, csiTail_ne_esc cs (h c (List.mem_cons_self c cs))]
    rw [ih (fun x hx => h x (List.mem_cons_of_mem c hx))]

theorem stripAnsiList_removes_seq (ps qs b : List Char) (f : Char)
    (hps : ∀ c ∈ ps, isCsiParam c = true) (hqs : ∀ c ∈ qs, isCsiInter c = true)
    (hf : isCsiFinal f = true) :
    ∀ a : List Char, (∀ c ∈ a, c ≠ escChar) →
      stripAnsiList (a ++ escChar :: '[' :: (ps ++ qs ++ f :: b)) = a ++ stripAnsiList b := by
  intro a
  induction a with
  | nil =>
    intro _
    rw [List.nil_append, stripAnsiList_cons, csiTail_valid hps hqs hf]
    rfl
  | cons c a' ih =>
    intro ha
    rw [List.cons_append, stripAnsiList_cons,
        csiTail_ne_esc _ (ha c (List.mem_cons_self c a'))]
    rw [ih (fun x hx => ha x (List.mem_cons_of_mem c hx))]
    rfl

/-! The claims. -/

/-- Claim C1 (amended): for every chunk sequence the worker accumulates
the concatenation of the per-chunk ANSI-stripped texts, and on process
exit exactly one callback fires, discriminated by whether the
accumulated ANSI-stripped error text is nonempty (not by whether raw
bytes arrived on the error channel). -/
theorem worker_callback_discriminator (chunks : List Chunk) :
    (Worker.accumulate chunks).output_data = (chunks.map chunkOut).flatten ∧
    (Worker.accumulate chunks).error_data = (chunks.map chunkErr).flatten ∧
    ((Worker.accumulate chunks).error_data = [] →
      Worker.process_finished (Worker.accumulate chunks)
        = WorkerSignal.outputReady (Worker.accumulate chunks).output_data) ∧
    ((Worker.accumulate chunks).error_data ≠ [] →
      Worker.process_finished (Worker.accumulate chunks)
        = WorkerSignal.errorOccurred (Worker.accumulate chunks).error_data) := by
  have h := accumulate_from chunks ⟨[], []⟩
  refine ⟨by simpa [Worker.accumulate] using h.1, by simpa [Worker.accumulate] using h.2, ?_, ?_⟩
  · intro he; unfold Worker.process_finished; rw [if_pos he]
  · intro he; unfold Worker.process_finished; rw [if_neg he]

/-- Witness for C1: on output chunk "partial output" and error chunk
with red-colored "boom", the failure callback fires with "boom". -/
theorem worker_callback_discriminator_witness :
    Worker.process_finished (Worker.accumulate coloredErrChunks)
      = WorkerSignal.errorOccurred (("boom").data) := by
  have h := (worker_callback_discriminator coloredErrChunks).2.2.2 (by decide)
  rw [h]
  decide

/-- Counterexample to C1 as stated: five bytes are written to the error
channel, yet the success callback (not the failure callback) fires,
because the bytes strip to the empty string. -/
theorem worker_ansi_only_stderr_yields_success :
    ansiOnlyErrChunk ≠ [] ∧
    Chunk.err ansiOnlyErrChunk ∈ ansiOnlyErrChunks ∧
    Worker.process_finished (Worker.accumulate ansiOnlyErrChunks)
      = WorkerSignal.outputReady [] :=
  ⟨by decide, by decide, by decide⟩

/-- Claim C4: strip_ansi_escape_codes removes every ANSI CSI escape
sequence (escape, bracket, parameter bytes, intermediate bytes, one
final byte) and leaves all other characters unchanged; in particular
the red-text example yields exactly "Red". -/
theorem strip_ansi_removes_csi :
    strip_ansi_escape_codes redExample = "Red" ∧
    (∀ s : List Char, (∀ c ∈ s, c ≠ escChar) → stripAnsiList s = s) ∧
    (∀ (a ps qs b : List Char) (f : Char),
      (∀ c ∈ a, c ≠ escChar) →
      (∀ c ∈ ps, isCsiParam c = true) →
      (∀ c ∈ qs, isCsiInter c = true) →
      isCsiFinal f = true →
      stripAnsiList (a ++ escChar :: '[' :: (ps ++ qs ++ f :: b)) = a ++ stripAnsiList b) :=
  ⟨by decide, stripAnsiList_no_esc,
   fun a ps qs b f ha hps hqs hf => stripAnsiList_removes_seq ps qs b f hps hqs hf a ha⟩

/-- Witness for C4: stripping "A ESC [ 3 1 m B" removes the color
sequence and keeps "AB". -/
theorem strip_ansi_removes_csi_witness :
    stripAnsiList (("A").data ++ escChar :: '[' :: (("31").data ++ [] ++ 'm' :: ("B").data))
      = ("AB").data := by
  have h := strip_ansi_removes_csi.2.2 (("A").data) (("31").data) [] (("B").data) 'm'
    (by decide) (by decide) (by decide) (by decide)
  rw [h]
  decide

/-- Claim C2 (amended): in the GUI parser the pipe delimiter is checked
before the colon delimiter when extracting the name: a line containing a
pipe is split at its first pipe even when the colon delimiter is also
present; only lines without a pipe fall through to the colon rule, on
which the GUI parser agrees with the file-loader parser (which considers
only the colon delimiter). -/
theorem line_parser_delimiter_order :
    (∀ a b : List Char, '|' ∉ a →
      AppImageManagerGUI.extract_app_name (a ++ '|' :: b)
        = pyStripList ((pyStripList a).dropWhile (fun c => c = '◆'))) ∧
    (∀ l : List Char, pyContains l pipeSep = false →
      AppImageManagerGUI.extract_app_name l = FileLoaderWorker.extract_app_name l) ∧
    (∀ l : List Char, pyContains l pipeSep = false →
      AppImageManagerGUI.extract_app_description l
        = FileLoaderWorker.extract_app_description l) := by
  refine ⟨?_, ?_, ?_⟩
  · intro a b h
    unfold AppImageManagerGUI.extract_app_name
    show (match splitFirst ['|'] (a ++ '|' :: b) with
      | some (left, _) => pyStripList ((pyStripList left).dropWhile (fun c => c = '◆'))
      | none =>
        match splitFirst colonSep (a ++ '|' :: b) with
        | some (left, _) => pyStripList ((pyStripList left).dropWhile (fun c => c = '◆'))
        | none => pyStripList ((pyStripList (a ++ '|' :: b)).dropWhile (fun c => c = '◆'))) = _
    rw [splitFirst_single '|' a b h]
  · intro l h
    unfold AppImageManagerGUI.extract_app_name FileLoaderWorker.extract_app_name
    rw [splitFirst_none_of_not_contains pipeSep l h]
    cases hc : splitFirst colonSep l with
    | some p =>
      obtain ⟨x, y⟩ := p
      exact (pyStripList_idem _).symm
    | none => exact (pyStripList_idem _).symm
  · intro l h
    unfold AppImageManagerGUI.extract_app_description FileLoaderWorker.extract_app_description
    cases hc : splitFirst colonSep l with
    | some p => rfl
    | none => rw [splitFirst_none_of_not_contains pipeSep l h]

/-- Witness for C2: on the line "x : y|z" the GUI parser returns the
name "x : y", taking the pipe split although the colon delimiter occurs
earlier in the line. -/
theorem line_parser_delimiter_order_witness :
    AppImageManagerGUI.extract_app_name (("x : y").data ++ '|' :: ("z").data)
      = ("x : y").data :=
  (line_parser_delimiter_order.1 (("x : y").data) (("z").data) (by decide)).trans (by decide)

/-- Counterexample to C2 as stated: the line "a : b|c" contains the
colon delimiter, yet the name is not the part before the first colon
delimiter ("a") but the part before the pipe ("a : b"). -/
theorem gui_name_ignores_colon_when_pipe_present :
    pyContains bothDelimLine colonSep = true ∧
    AppImageManagerGUI.extract_app_name bothDelimLine = ("a : b").data ∧
    AppImageManagerGUI.extract_app_name bothDelimLine
      ≠ pyStripList ((pyStripList ((splitFirst colonSep bothDelimLine).getD
          (bothDelimLine, [])).1).dropWhile (fun c => c = '◆')) :=
  ⟨by decide, by decide, by decide⟩

/-- Claim C3 (amended): for a line containing neither delimiter both
parsers return an empty description and a name equal to the trimmed
line with every leading marker glyph removed (not just one). -/
theorem no_delimiter_parse (l : List Char)
    (hc : pyContains l colonSep = false) (hp : pyContains l pipeSep = false) :
    AppImageManagerGUI.extract_app_name l
      = pyStripList ((pyStripList l).dropWhile (fun c => c = '◆')) ∧
    AppImageManagerGUI.extract_app_description l = [] ∧
    FileLoaderWorker.extract_app_name l
      = pyStripList ((pyStripList l).dropWhile (fun c => c = '◆')) ∧
    FileLoaderWorker.extract_app_description l = [] := by
  have hcs := splitFirst_none_of_not_contains colonSep l hc
  have hps := splitFirst_none_of_not_contains pipeSep l hp
  refine ⟨?_, ?_, ?_, ?_⟩
  · unfold AppImageManagerGUI.extract_app_name
    rw [hps, hcs]
  · unfold AppImageManagerGUI.extract_app_description
    rw [hcs, hps]
  · unfold FileLoaderWorker.extract_app_name
    rw [hcs]
    exact pyStripList_idem _
  · unfold FileLoaderWorker.extract_app_description
    rw [hcs]

/-- Witness for C3: the delimiter-free line with two leading marker
glyphs parses to the name with both glyphs gone. -/
theorem no_delimiter_parse_witness :
    FileLoaderWorker.extract_app_name doubleMarkerLine = ("stacer").data :=
  ((no_delimiter_parse doubleMarkerLine (by decide) (by decide)).2.2.1).trans (by decide)

/-- Counterexample to C3 as stated: the delimiter-free line with two
leading marker glyphs yields the name "stacer", not a name keeping one
glyph, in both parsers. -/
theorem double_marker_fully_stripped :
    pyContains doubleMarkerLine colonSep = false ∧
    pyContains doubleMarkerLine pipeSep = false ∧
    FileLoaderWorker.extract_app_name doubleMarkerLine = ("stacer").data ∧
    FileLoaderWorker.extract_app_name doubleMarkerLine ≠ '◆' :: ("stacer").data ∧
    AppImageManagerGUI.extract_app_name doubleMarkerLine = ("stacer").data :=
  ⟨by decide, by decide, by decide, by decide, by decide⟩

/-- Claim C5: the installed-apps refresh parses only lines beginning
with the marker glyph, discards every other line, flags each produced
entry installed, and on the mock output yields exactly the entries
App1/desc1 and App2/desc2. -/
theorem refresh_installed_only_marker_lines :
    AppImageManagerGUI.refresh_installed_callback mockInstalledOutput
      = [⟨("App1").data, ("desc1").data, true⟩, ⟨("App2").data, ("desc2").data, true⟩] ∧
    (∀ output : List Char, ∀ e ∈ AppImageManagerGUI.refresh_installed_callback output,
      e.isInstalledFlag = true) ∧
    (∀ line : List Char, headIsMarker (pyStripList line) = false →
      AppImageManagerGUI.installedLineStep line = none) :=
  ⟨by decide, refresh_installed_flag, installedLineStep_none_of_no_marker⟩

/-- Witness for C5: the first entry produced from the mock output is
flagged installed. -/
theorem refresh_installed_only_marker_lines_witness :
    (⟨("App1").data, ("desc1").data, true⟩ : AppEntry).isInstalledFlag = true :=
  refresh_installed_only_marker_lines.2.1 mockInstalledOutput _ (by decide)

/-- Claim C6 (amended): a text shorter than 2 characters does not
trigger automatic search and leaves the state unchanged; the session
cache is never modified; a text whose stripped form is empty leaves the
state unchanged (a warning is shown instead); otherwise the displayed
list holds exactly the cached entries whose lowercased name or
description contains the lowercased stripped query — the stripped
query, not the raw text. -/
theorem search_filters_stripped_query (text : List Char) (st : GuiState) :
    (text.length < 2 → AppImageManagerGUI.on_search_text_changed text st = st) ∧
    ((AppImageManagerGUI.on_search_text_changed text st).all_available_apps
       = st.all_available_apps) ∧
    (pyStripList text = [] → AppImageManagerGUI.on_search_text_changed text st = st) ∧
    (2 ≤ text.length → pyStripList text ≠ [] →
      ∀ e : AppEntry,
        e ∈ (AppImageManagerGUI.on_search_text_changed text st).displayed_available ↔
          e ∈ st.all_available_apps ∧
            (pyContains (pyLower e.name) (pyLower (pyStripList text)) = true ∨
             pyContains (pyLower e.description) (pyLower (pyStripList text)) = true)) := by
  refine ⟨?_, ?_, ?_, ?_⟩
  · intro h
    have h2 : ¬ 2 ≤ text.length := by omega
    simp [AppImageManagerGUI.on_search_text_changed, h2]
  · by_cases h2 : 2 ≤ text.length
    · by_cases h3 : pyStripList text = []
      · simp [AppImageManagerGUI.on_search_text_changed, AppImageManagerGUI.perform_search,
              h2, h3]
      · simp [AppImageManagerGUI.on_search_text_changed, AppImageManagerGUI.perform_search,
              h2, h3]
    · simp [AppImageManagerGUI.on_search_text_changed, h2]
  · intro h3
    by_cases h2 : 2 ≤ text.length
    · simp [AppImageManagerGUI.on_search_text_changed, AppImageManagerGUI.perform_search,
            h2, h3]
    · simp [AppImageManagerGUI.on_search_text_changed, h2]
  · intro h2 h3 e
    simp only [AppImageManagerGUI.on_search_text_changed, AppImageManagerGUI.perform_search,
               if_pos h2, if_neg h3]
    rw [List.mem_filter]
    simp [Bool.or_eq_true]

/-- Witness for C6: searching "im" over the witness cache displays the
gimp entry. -/
theorem search_filters_stripped_query_witness :
    (⟨("gimp").data, ("image editor").data, true⟩ : AppEntry)
      ∈ (AppImageManagerGUI.on_search_text_changed (("im").data)
           searchWitnessState).displayed_available :=
  ((search_filters_stripped_query (("im").data) searchWitnessState).2.2.2
      (by decide) (by decide) _).mpr ⟨by decide, Or.inl (by decide)⟩

/-- Counterexample to C6 as stated: the three-character query "ab "
keeps the entry named "ab" in the displayed list although neither its
name nor its description contains the query "ab " — the code filters on
the stripped query "ab". -/
theorem search_trims_query_counterexample :
    2 ≤ trailingSpaceQuery.length ∧
    (AppImageManagerGUI.on_search_text_changed trailingSpaceQuery
        shortNameState).displayed_available = [shortNameEntry] ∧
    pyContains (pyLower shortNameEntry.name) (pyLower trailingSpaceQuery) = false ∧
    pyContains (pyLower shortNameEntry.description) (pyLower trailingSpaceQuery) = false :=
  ⟨by decide, by decide, by decide, by decide⟩

/-- Claim C7 (amended): the is-app flag stored as the third tuple
component is set true both for entries parsed from the list-installed
output and, unconditionally, for entries parsed from the available-apps
file; it therefore does not distinguish installed entries. -/
theorem installed_flag_set_on_both_paths :
    (∀ fileLines : List (List Char), ∀ e ∈ FileLoaderWorker.run fileLines,
      e.isInstalledFlag = true) ∧
    (∀ output : List Char, ∀ e ∈ AppImageManagerGUI.refresh_installed_callback output,
      e.isInstalledFlag = true) :=
  ⟨fileLoader_flag, refresh_installed_flag⟩

/-- Witness for C7: the entry loaded from the sample available-apps file
line carries the flag. -/
theorem installed_flag_set_on_both_paths_witness :
    (⟨("krita").data, ("painting").data, true⟩ : AppEntry).isInstalledFlag = true :=
  installed_flag_set_on_both_paths.1 availWitnessLines _ (by decide)

/-- Counterexample to C7 as stated: an entry parsed from the
available-apps file (not from the list-installed output) carries the
flag as true. -/
theorem file_loader_sets_installed_flag :
    FileLoaderWorker.run availFileLines
      = [⟨("zoom").data, ("video calls").data, true⟩] ∧
    (FileLoaderWorker.run availFileLines).all (fun e => e.isInstalledFlag) = true ∧
    FileLoaderWorker.run availFileLines ≠ [] :=
  ⟨by decide, by decide, by decide⟩

/-- Claim C8 (amended): without the marker phrase the full output is
displayed verbatim; with the marker phrase the displayed message is the
marker phrase, a newline, and the stripped text after the last
occurrence of the marker phrase (which contains no further
occurrence). -/
theorem install_display_spec (output : List Char) :
    (pyContains output success_message_start = false →
      AppImageManagerGUI.install_callback_display output = output) ∧
    (pyContains output success_message_start = true →
      AppImageManagerGUI.install_callback_display output
        = success_message_start ++ '\n' :: pyStripList (lastSplitSegment output)) ∧
    pyContains (lastSplitSegment output) success_message_start = false := by
  refine ⟨?_, ?_, lastSplitSegment_no_marker output⟩
  · intro h
    unfold AppImageManagerGUI.install_callback_display
    rw [if_neg (by simp [h])]
  · intro h
    unfold AppImageManagerGUI.install_callback_display
    rw [if_pos h]

/-- Witness for C8: output without the marker phrase is displayed
verbatim. -/
theorem install_display_spec_witness :
    AppImageManagerGUI.install_callback_display installOutPlain = installOutPlain :=
  (install_display_spec installOutPlain).1 (by decide)

/-- Counterexample to C8 as stated: on output containing the marker
phrase the displayed message is not only the text following the marker
phrase — the marker phrase itself is prepended. -/
theorem install_display_includes_marker :
    pyContains installOutWithMarker success_message_start = true ∧
    AppImageManagerGUI.install_callback_display installOutWithMarker
      = success_message_start ++ '\n' :: ("kiwix").data ∧
    AppImageManagerGUI.install_callback_display installOutWithMarker ≠ ("kiwix").data :=
  ⟨by decide, by decide, by decide⟩

/-- Claim C9: on every exit path of the bootstrap installer step — the
download raising (file created or not), chmod raising, the installer
run raising, or the installer finishing with any return code — the
downloaded script is gone from disk when the step returns; the step
reports success exactly for a zero return code. -/
theorem am_installer_cleanup_all_paths (oc : InstallerOutcome) :
    (download_and_run_am_installer oc).2.installerFileOnDisk = false ∧
    ((download_and_run_am_installer oc).1 = true ↔ oc = InstallerOutcome.finishes 0) := by
  cases oc with
  | downloadRaises created =>
    refine ⟨?_, by simp [download_and_run_am_installer]⟩
    cases created <;> rfl
  | chmodRaises => exact ⟨rfl, by simp [download_and_run_am_installer]⟩
  | runRaises => exact ⟨rfl, by simp [download_and_run_am_installer]⟩
  | finishes rc =>
    by_cases h : rc = 0
    · subst h
      exact ⟨by simp [download_and_run_am_installer, installerCleanup],
             by simp [download_and_run_am_installer]⟩
    · exact ⟨by simp [download_and_run_am_installer, installerCleanup, h],
             by simp [download_and_run_am_installer, h]⟩

/-- Claim C10: the icon cache path is derived solely from the URL's
basename inside the cache directory, so URLs sharing a basename share
the cache file; a cache hit returns the path without downloading; a
failing download returns no path and the entry renders with the empty
icon. -/
theorem download_icon_cache_spec (fs : List Char → Bool)
    (net : List Char → Option (List Char)) (u1 u2 : List Char) :
    (os_path_basename u1 = os_path_basename u2 → icon_cache_path u1 = icon_cache_path u2) ∧
    (fs (icon_cache_path u1) = true →
      download_icon fs net u1 = ⟨some (icon_cache_path u1), false, fs⟩) ∧
    (fs (icon_cache_path u1) = false → net u1 = none →
      (download_icon fs net u1).resultPath = none ∧
      SuggestedAppModel.decorationData fs net u1 = IconValue.empty) := by
  refine ⟨?_, ?_, ?_⟩
  · intro h
    unfold icon_cache_path
    rw [h]
  · intro h
    simp [download_icon, h]
  · intro h1 h2
    constructor
    · simp [download_icon, h1, h2]
    · simp [SuggestedAppModel.decorationData, download_icon, h1, h2]

/-- Witness for C10: with the cache file for the first URL present the
path is returned without a download; the second URL, sharing the
basename, maps to the same cache path; with an empty cache and a
failing network the result is no path. -/
theorem download_icon_cache_spec_witness :
    (download_icon iconFsCached iconNetDown iconUrlA).resultPath
        = some (icon_cache_path iconUrlA) ∧
    (download_icon iconFsCached iconNetDown iconUrlA).downloadAttempted = false ∧
    icon_cache_path iconUrlA = icon_cache_path iconUrlB ∧
    (download_icon iconFsEmpty iconNetDown iconUrlB).resultPath = none := by
  have h := download_icon_cache_spec iconFsCached iconNetDown iconUrlA iconUrlB
  have h2 := download_icon_cache_spec iconFsEmpty iconNetDown iconUrlB iconUrlA
  refine ⟨?_, ?_, h.1 (by decide), (h2.2.2 (by decide) rfl).1⟩
  · rw [h.2.1 (by decide)]
  · rw [h.2.1 (by decide)]

/-- Witness for C9: after an installer run that raised, the downloaded
script is no longer on disk. -/
theorem am_installer_cleanup_all_paths_witness :
    (download_and_run_am_installer InstallerOutcome.runRaises).2.installerFileOnDisk = false :=
  (am_installer_cleanup_all_paths InstallerOutcome.runRaises).1
